import Mathlib

/-!
Verification of the raster annotation engine of the notebooks-gd repository.

The engine appears three times in the source, with near duplicated logic:
the standalone drawing cell (src/components/DrawingCell.tsx), the compact
mini drawing cell (the MiniDrawing component), and the PDF page annotation
overlay (the PDFCell component).  This file gives a shallow embedding of
the pixel model, the background pattern generator, the snapshot history
manager, the pointer driven input handlers of all three components, the
cancellable page render adapter, and the mini cell resize handler, and
proves or refutes the frozen claims about them.

Pixel model.  Canvas 2D drawing is embedded as a deep command language
rasterized onto an explicit pixel grid.  Colors are CSS color strings as
they appear in the source, plus an explicit transparent value (a fresh or
cleared canvas) and a symbolic constructor for blends the claims never
inspect (translucent or multiply compositing).  Coordinates and widths are
rationals; a stroked segment covers the pixels whose squared distance to
the segment is at most the squared half width, an approximation of the
round capped canvas stroke that is irrelevant to every claim proved here.
-/

/-- Composite operations used by the source: the default source-over,
destination-out for the PDF eraser, multiply for the highlighter. -/
inductive CompOp where
  | sourceOver
  | destinationOut
  | multiply
deriving DecidableEq, Repr

/-- A pixel value: transparent (fresh or cleared canvas), a solid CSS
color, or a symbolic blend for translucent compositing. -/
inductive Color where
  | transparent
  | rgb (css : String)
  | blended (op : CompOp) (alpha : ℚ) (top : String) (under : Color)
deriving DecidableEq, Repr

/-- Painting one pixel: destination-out clears it, solid source-over paint
replaces it, anything else is kept symbolically. -/
def blendPixel (op : CompOp) (alpha : ℚ) (top : String) (under : Color) : Color :=
  match op with
  | .destinationOut => Color.transparent
  | .sourceOver => if alpha = 1 then Color.rgb top else Color.blended .sourceOver alpha top under
  | .multiply => Color.blended .multiply alpha top under

/-- A stroke point as produced by getCanvasPoint: surface coordinates and a
pressure that defaults to 0.5 when the device reports none. -/
structure Point where
  x : ℚ
  y : ℚ
  pressure : ℚ
deriving DecidableEq, Repr

/-- A pixel buffer: width, height and a row major list of pixels. -/
structure Raster where
  width : Nat
  height : Nat
  data : List Color
deriving DecidableEq, Repr

/-- Squared distance from a query point to the segment between two points,
in rational arithmetic (no square roots needed for comparisons). -/
def sqDistToSeg (x1 y1 x2 y2 px py : ℚ) : ℚ :=
  let dx := x2 - x1
  let dy := y2 - y1
  let len2 := dx * dx + dy * dy
  if len2 = 0 then (px - x1) * (px - x1) + (py - y1) * (py - y1)
  else
    let t := ((px - x1) * dx + (py - y1) * dy) / len2
    let tc := max 0 (min 1 t)
    let cx := x1 + tc * dx
    let cy := y1 + tc * dy
    (px - cx) * (px - cx) + (py - cy) * (py - cy)

/-- Deep embedding of the canvas primitives the three components use. -/
inductive DrawCmd where
  | fillRect (x y w h : ℚ) (css : String)
  | strokeSeg (x1 y1 x2 y2 : ℚ) (halfW : ℚ) (css : String) (op : CompOp) (alpha : ℚ)
  | strokeRect (x y w h : ℚ) (halfW : ℚ) (css : String)
  | ellipseStroke (cx cy rx ry : ℚ) (halfW : ℚ) (css : String)
  | ellipseFill (cx cy rx ry : ℚ) (css : String)
  | dot (cx cy rad : ℚ) (css : String)
  | arrowHead (x2 y2 : ℚ) (headLen : ℚ) (css : String) (halfW : ℚ)
deriving DecidableEq, Repr

/-- Membership of a point in the axis aligned rectangle spanned by a corner
and a signed extent, as canvas fillRect treats negative extents. -/
def inRect (x y w h px py : ℚ) : Prop :=
  min x (x + w) ≤ px ∧ px ≤ max x (x + w) ∧ min y (y + h) ≤ py ∧ py ≤ max y (y + h)

instance (x y w h px py : ℚ) : Decidable (inRect x y w h px py) := by
  unfold inRect; infer_instance

/-- Pixel coverage of each command.  The arrow head, which the source draws
with trigonometry, is approximated by a disc of its head length around the
tip; no claim depends on its exact shape. -/
def covers (c : DrawCmd) (px py : ℚ) : Prop :=
  match c with
  | .fillRect x y w h _ => inRect x y w h px py
  | .strokeSeg x1 y1 x2 y2 halfW _ _ _ => sqDistToSeg x1 y1 x2 y2 px py ≤ halfW * halfW
  | .strokeRect x y w h halfW _ =>
      inRect (x - halfW) (y - halfW) (w + 2 * halfW) (h + 2 * halfW) px py ∧
      ¬ inRect (x + halfW) (y + halfW) (w - 2 * halfW) (h - 2 * halfW) px py
  | .ellipseStroke cx cy rx ry halfW _ =>
      (px - cx) * (px - cx) * (ry + halfW) * (ry + halfW) +
        (py - cy) * (py - cy) * (rx + halfW) * (rx + halfW) ≤
        (rx + halfW) * (rx + halfW) * (ry + halfW) * (ry + halfW) ∧
      ¬ ((px - cx) * (px - cx) * (ry - halfW) * (ry - halfW) +
        (py - cy) * (py - cy) * (rx - halfW) * (rx - halfW) <
        (rx - halfW) * (rx - halfW) * (ry - halfW) * (ry - halfW))
  | .ellipseFill cx cy rx ry _ =>
      (px - cx) * (px - cx) * ry * ry + (py - cy) * (py - cy) * rx * rx ≤ rx * rx * ry * ry
  | .dot cx cy rad _ => (px - cx) * (px - cx) + (py - cy) * (py - cy) ≤ rad * rad
  | .arrowHead x2 y2 headLen _ _ => (px - x2) * (px - x2) + (py - y2) * (py - y2) ≤ headLen * headLen

instance (c : DrawCmd) (px py : ℚ) : Decidable (covers c px py) := by
  unfold covers; cases c <;> infer_instance

/-- The paint a command applies to a covered pixel. -/
def paintPixel (c : DrawCmd) (under : Color) : Color :=
  match c with
  | .fillRect _ _ _ _ css => blendPixel .sourceOver 1 css under
  | .strokeSeg _ _ _ _ _ css op alpha => blendPixel op alpha css under
  | .strokeRect _ _ _ _ _ css => blendPixel .sourceOver 1 css under
  | .ellipseStroke _ _ _ _ _ css => blendPixel .sourceOver 1 css under
  | .ellipseFill _ _ _ _ css => blendPixel .sourceOver 1 css under
  | .dot _ _ _ css => blendPixel .sourceOver 1 css under
  | .arrowHead _ _ _ css _ => blendPixel .sourceOver 1 css under

/-- Indexed map over the pixel list, carrying the running pixel index. -/
def paintData (f : Nat → Color → Color) : Nat → List Color → List Color
  | _, [] => []
  | i, c :: cs => f i c :: paintData f (i + 1) cs

/-- Whether command c covers the pixel with row major index i on a raster
of the given width. -/
def coversIdx (w : Nat) (c : DrawCmd) (i : Nat) : Prop :=
  covers c ((i % w : Nat) : ℚ) ((i / w : Nat) : ℚ)

instance (w : Nat) (c : DrawCmd) (i : Nat) : Decidable (coversIdx w c i) := by
  unfold coversIdx; infer_instance

/-- Rasterize one command onto a raster. -/
def applyCmd (c : DrawCmd) (r : Raster) : Raster :=
  { r with data := paintData (fun i old => if coversIdx r.width c i then paintPixel c old else old) 0 r.data }

/-- Rasterize a command list in order. -/
def applyCmds (cs : List DrawCmd) (r : Raster) : Raster :=
  cs.foldl (fun r c => applyCmd c r) r

/-- A fresh canvas element: every pixel transparent. -/
def blankRaster (w h : Nat) : Raster :=
  { width := w, height := h, data := List.replicate (w * h) Color.transparent }

/-- clearRect over the whole canvas: every pixel transparent, dimensions kept. -/
def clearRaster (r : Raster) : Raster :=
  { r with data := List.replicate r.data.length Color.transparent }

theorem paintData_length (f : Nat → Color → Color) : ∀ (cs : List Color) (i : Nat),
    (paintData f i cs).length = cs.length := by
  intro cs
  induction cs with
  | nil => intro i; rfl
  | cons c cs ih => intro i; simp [paintData, ih]

theorem paintData_get? (f : Nat → Color → Color) : ∀ (cs : List Color) (i j : Nat),
    (paintData f j cs).get? i = (cs.get? i).map (f (j + i)) := by
  intro cs
  induction cs with
  | nil => intro i j; rfl
  | cons c cs ih =>
    intro i j
    cases i with
    | zero => rfl
    | succ i =>
      have harg : j + 1 + i = j + (i + 1) := by omega
      show (paintData f (j + 1) cs).get? i = (cs.get? i).map (f (j + (i + 1)))
      rw [ih i (j + 1), harg]

theorem applyCmd_width (c : DrawCmd) (r : Raster) : (applyCmd c r).width = r.width := rfl

theorem applyCmd_height (c : DrawCmd) (r : Raster) : (applyCmd c r).height = r.height := rfl

theorem applyCmd_length (c : DrawCmd) (r : Raster) :
    (applyCmd c r).data.length = r.data.length := by
  simp [applyCmd, paintData_length]

theorem applyCmds_width (cs : List DrawCmd) : ∀ (r : Raster), (applyCmds cs r).width = r.width := by
  induction cs with
  | nil => intro r; rfl
  | cons c cs ih => intro r; simpa [applyCmds] using ih (applyCmd c r)

theorem applyCmds_height (cs : List DrawCmd) : ∀ (r : Raster), (applyCmds cs r).height = r.height := by
  induction cs with
  | nil => intro r; rfl
  | cons c cs ih => intro r; simpa [applyCmds] using ih (applyCmd c r)

theorem applyCmds_length (cs : List DrawCmd) : ∀ (r : Raster),
    (applyCmds cs r).data.length = r.data.length := by
  induction cs with
  | nil => intro r; rfl
  | cons c cs ih =>
    intro r
    simpa [applyCmds, applyCmd_length] using ih (applyCmd c r)

/-!
Background pattern generator.  DrawingCell.drawBackground (DrawingCell.tsx
lines 59 to 107) fills the whole canvas with the theme base color, then
strokes vertical or horizontal 1 pixel rules or fills small dots at a 20
pixel pitch depending on the background type.
-/

/-- Background variants of the drawing cells. -/
inductive BackgroundType where
  | blank
  | grid
  | lines
  | dots
deriving DecidableEq, Repr

/-- The theme base fill used by drawBackground. -/
def dcBgFillColor (dark : Bool) : String :=
  if dark then "#1f2937" else "#ffffff"

/-- The theme rule color used by drawBackground. -/
def dcGridColor (dark : Bool) : String :=
  if dark then "#374151" else "#e5e7eb"

/-- The eraser color of the drawing cell (DrawingCell.tsx line 57): the
theme background color. -/
def dcEraserColor (dark : Bool) : String :=
  if dark then "#1f2937" else "#ffffff"

/-- Loop positions of the for loops in drawBackground: gridSize, 2 times
gridSize, and so on while below the limit, with gridSize equal 20. -/
def gridSteps (limit : Nat) : List Nat :=
  (List.range limit).filter (fun v => decide (v % 20 = 0) && decide (v ≠ 0))

/-- The ruling commands of DrawingCell.drawBackground after the base fill:
vertical and horizontal 1 pixel rules or dots at the 20 pixel pitch. -/
def drawBackgroundTail (w h : Nat) (bgType : BackgroundType) (dark : Bool) : List DrawCmd :=
  match bgType with
  | .blank => []
  | .grid =>
      ((gridSteps w).map (fun x => DrawCmd.strokeSeg (x : ℚ) 0 (x : ℚ) (h : ℚ) (1/2) (dcGridColor dark) .sourceOver 1)) ++
      ((gridSteps h).map (fun y => DrawCmd.strokeSeg 0 (y : ℚ) (w : ℚ) (y : ℚ) (1/2) (dcGridColor dark) .sourceOver 1))
  | .lines =>
      (gridSteps h).map (fun y => DrawCmd.strokeSeg 0 (y : ℚ) (w : ℚ) (y : ℚ) (1/2) (dcGridColor dark) .sourceOver 1)
  | .dots =>
      (gridSteps w).flatMap (fun x => (gridSteps h).map (fun y => DrawCmd.dot (x : ℚ) (y : ℚ) (3/2) (dcGridColor dark)))

/-- Command sequence of DrawingCell.drawBackground: the base fill over the
whole canvas followed by the ruling commands. -/
def drawBackgroundCmds (w h : Nat) (bgType : BackgroundType) (dark : Bool) : List DrawCmd :=
  DrawCmd.fillRect 0 0 (w : ℚ) (h : ℚ) (dcBgFillColor dark) :: drawBackgroundTail w h bgType dark

/-- DrawingCell.drawBackground as a raster transformer: rasterize the
command sequence over whatever the canvas held before. -/
def drawBackground (w h : Nat) (bgType : BackgroundType) (dark : Bool) (r : Raster) : Raster :=
  applyCmds (drawBackgroundCmds w h bgType dark) r

/-- The ink canvas produced by the drawing cell init effect when the cell
has no saved payload (DrawingCell.tsx lines 167 to 171): the background is
drawn onto the main drawing canvas itself. -/
def dcInitInk (w h : Nat) (bgType : BackgroundType) (dark : Bool) : Raster :=
  drawBackground w h bgType dark (blankRaster w h)

/-- The ink canvas produced by handleClear (DrawingCell.tsx lines 359 to
366): the background is redrawn onto the main canvas. -/
def dcClearInk (w h : Nat) (bgType : BackgroundType) (dark : Bool) (r : Raster) : Raster :=
  drawBackground w h bgType dark r

/-- The PDF overlay canvas after page initialization with no saved overlay
(part_004 lines 188 and 223): clearRect over the whole drawing canvas. -/
def pdfInitOverlay (r : Raster) : Raster :=
  clearRaster r

/-!
History manager.  saveToHistory, undo and redo appear twice with identical
logic: DrawingCell.tsx lines 109 to 146 and part_004 (PDFCell) lines 274
to 311.  The history is a list of full ink snapshots plus an integer
cursor that starts at minus one before the first save.
-/

/-- Core of saveToHistory: slice away redo states after the cursor, append
the snapshot, set the cursor to the last position, and if the sequence now
exceeds 50 entries shift the oldest out and decrement the cursor. -/
def pushHistory {α : Type} (snap : α) (hist : List α) (idx : Int) : List α × Int :=
  let t := hist.take (idx + 1).toNat ++ [snap]
  let i1 : Int := (t.length : Int) - 1
  if t.length > 50 then (t.drop 1, i1 - 1) else (t, i1)

/-- The mutable state the history manager owns: the ink canvas, the
snapshot list and the cursor. -/
structure Hist (α : Type) where
  canvas : α
  history : List α
  index : Int
deriving DecidableEq, Repr

/-- saveToHistory: snapshot the current ink canvas into the history. -/
def saveToHistory {α : Type} (s : Hist α) : Hist α :=
  let p := pushHistory s.canvas s.history s.index
  { s with history := p.1, index := p.2 }

/-- undo: when the cursor is positive, decrement it and restore that
snapshot into the ink canvas; otherwise do nothing. -/
def undo {α : Type} (s : Hist α) : Hist α :=
  if 0 < s.index then
    { s with canvas := s.history.getD (s.index - 1).toNat s.canvas, index := s.index - 1 }
  else s

/-- redo: when the cursor is before the last entry, increment it and
restore that snapshot; otherwise do nothing. -/
def redo {α : Type} (s : Hist α) : Hist α :=
  if s.index < (s.history.length : Int) - 1 then
    { s with canvas := s.history.getD (s.index + 1).toNat s.canvas, index := s.index + 1 }
  else s

/-- Iterated undo. -/
def undoN {α : Type} : Nat → Hist α → Hist α
  | 0, s => s
  | n + 1, s => undoN n (undo s)

/-- Iterated redo. -/
def redoN {α : Type} : Nat → Hist α → Hist α
  | 0, s => s
  | n + 1, s => redoN n (redo s)

/-- One completed gesture as the history manager sees it: the pointer
events mutate the ink canvas in place, and handlePointerUp ends with one
saveToHistory call. -/
def applyGesture {α : Type} (f : α → α) (s : Hist α) : Hist α :=
  saveToHistory { s with canvas := f s.canvas }

/-- A sequence of completed gestures. -/
def applyGestures {α : Type} (fs : List (α → α)) (s : Hist α) : Hist α :=
  fs.foldl (fun s f => applyGesture f s) s

/-- Surface initialization: the init effect ends with one saveToHistory
call seeding the history with the initial ink state. -/
def initHist {α : Type} (c : α) : Hist α :=
  saveToHistory { canvas := c, history := [], index := -1 }

/-- A raw sequence of pushes, for the bound invariant. -/
def pushMany {α : Type} : List α → List α × Int → List α × Int
  | [], hi => hi
  | a :: as, (hist, idx) => pushMany as (pushHistory a hist idx)

/-!
Standalone drawing cell (DrawingCell.tsx): tools, freehand drawLine, shape
renderer, preview clearing and the pointer handlers.
-/

/-- Tools of the standalone drawing cell. -/
inductive DCTool where
  | pen
  | eraser
  | line
  | rect
  | circle
  | arrow
deriving DecidableEq, Repr

/-- isShapeTool (DrawingCell.tsx line 218). -/
def dcIsShapeTool (t : DCTool) : Bool :=
  match t with
  | .line => true
  | .rect => true
  | .circle => true
  | .arrow => true
  | _ => false

/-- drawLine (DrawingCell.tsx lines 204 to 216): average the pressures,
the eraser strokes 8 times the brush size in the theme background color,
any other tool strokes pressure scaled in the selected color; compositing
is the canvas default source-over at full alpha. -/
def dcDrawLine (tool : DCTool) (dark : Bool) (color : String) (brushSize : ℚ)
    (fromP toP : Point) (r : Raster) : Raster :=
  let pressure := (fromP.pressure + toP.pressure) / 2
  let size := if tool = .eraser then brushSize * 8 else brushSize * (1/2 + pressure)
  let css := if tool = .eraser then dcEraserColor dark else color
  applyCmd (DrawCmd.strokeSeg fromP.x fromP.y toP.x toP.y (size / 2) css .sourceOver 1) r

/-- drawShape (DrawingCell.tsx lines 220 to 275): shape geometry from the
start point to the end point; fill happens only when the fill flag is set
and the pass is not a preview. -/
def dcDrawShape (color : String) (brushSize : ℚ) (fillShape : Bool)
    (shapeType : DCTool) (start finish : Point) (preview : Bool) (r : Raster) : Raster :=
  match shapeType with
  | .line =>
      applyCmd (DrawCmd.strokeSeg start.x start.y finish.x finish.y (brushSize / 2) color .sourceOver 1) r
  | .arrow =>
      let headLength := max 10 (brushSize * 4)
      applyCmd (DrawCmd.arrowHead finish.x finish.y headLength color (brushSize / 2))
        (applyCmd (DrawCmd.strokeSeg start.x start.y finish.x finish.y (brushSize / 2) color .sourceOver 1) r)
  | .rect =>
      let rectW := finish.x - start.x
      let rectH := finish.y - start.y
      let r1 := if fillShape && !preview then
          applyCmd (DrawCmd.fillRect start.x start.y rectW rectH color) r
        else r
      applyCmd (DrawCmd.strokeRect start.x start.y rectW rectH (brushSize / 2) color) r1
  | .circle =>
      let radiusX := |finish.x - start.x| / 2
      let radiusY := |finish.y - start.y| / 2
      let centerX := start.x + (finish.x - start.x) / 2
      let centerY := start.y + (finish.y - start.y) / 2
      let r1 := if fillShape && !preview then
          applyCmd (DrawCmd.ellipseFill centerX centerY radiusX radiusY color) r
        else r
      applyCmd (DrawCmd.ellipseStroke centerX centerY radiusX radiusY (brushSize / 2) color) r1
  | _ => r

/-- Component state of the standalone drawing cell: the toolbar state, the
three canvases it owns (the background canvas is not mutated by gestures),
the transient gesture cursors, and the history. -/
structure DCState where
  isEditing : Bool
  isDrawing : Bool
  tool : DCTool
  color : String
  brushSize : ℚ
  fillShape : Bool
  dark : Bool
  canvas : Raster
  preview : Raster
  lastPoint : Option Point
  shapeStart : Option Point
  history : List Raster
  historyIndex : Int
deriving DecidableEq, Repr

/-- handlePointerDown (DrawingCell.tsx lines 285 to 299). -/
def dcPointerDown (p : Point) (s : DCState) : DCState :=
  if s.isEditing = false then s
  else
    { s with isDrawing := true, lastPoint := some p,
             shapeStart := if dcIsShapeTool s.tool then some p else s.shapeStart }

/-- handlePointerMove (DrawingCell.tsx lines 301 to 326): shape tools clear
and redraw the preview canvas only; freehand tools stroke the main canvas
and advance the last point. -/
def dcPointerMove (p : Point) (s : DCState) : DCState :=
  if s.isDrawing = false || s.isEditing = false then s
  else if dcIsShapeTool s.tool then
    match s.shapeStart with
    | none => s
    | some st =>
        { s with preview := dcDrawShape s.color s.brushSize s.fillShape s.tool st p true (clearRaster s.preview) }
  else
    match s.lastPoint with
    | none => s
    | some lp =>
        { s with canvas := dcDrawLine s.tool s.dark s.color s.brushSize lp p s.canvas,
                 lastPoint := some p }

/-- handlePointerUp (DrawingCell.tsx lines 328 to 349): commit the shape to
the main canvas if one was in progress, clear the preview, reset the
gesture cursors, and push exactly one history entry. -/
def dcPointerUp (p : Point) (s : DCState) : DCState :=
  if s.isDrawing = false then s
  else
    let s1 :=
      if dcIsShapeTool s.tool then
        match s.shapeStart with
        | some st =>
            { s with canvas := dcDrawShape s.color s.brushSize s.fillShape s.tool st p false s.canvas,
                     preview := clearRaster s.preview, shapeStart := none }
        | none => s
      else s
    let hp := pushHistory s1.canvas s1.history s1.historyIndex
    { s1 with isDrawing := false, lastPoint := none, history := hp.1, historyIndex := hp.2 }

/-- Fold the pointer move handler over a list of move points. -/
def dcMoves (moves : List Point) (s : DCState) : DCState :=
  moves.foldl (fun s m => dcPointerMove m s) s

/-- One complete gesture: pointer down, the moves, pointer up. -/
def dcRunGesture (p : Point) (moves : List Point) (q : Point) (s : DCState) : DCState :=
  dcPointerUp q (dcMoves moves (dcPointerDown p s))

/-!
PDF annotation overlay (part_004, PDFCell): the drawing context carries the
composite operation and global alpha, drawLine switches them per tool and
restores them after each segment, and the pointer handlers mirror the
standalone cell without shape tools.
-/

/-- Tools of the PDF annotation overlay. -/
inductive PdfTool where
  | pen
  | eraser
  | highlighter
deriving DecidableEq, Repr

/-- The 2D context of the overlay canvas: composite operation, global
alpha, and the pixel buffer. -/
structure Ctx where
  gco : CompOp
  alpha : ℚ
  raster : Raster
deriving DecidableEq, Repr

/-- PDFCell.drawLine (part_004 lines 325 to 354): eraser strokes 3 times
the brush size with destination-out (alpha untouched), highlighter strokes
4 times the brush size with multiply at alpha 0.3, pen strokes pressure
scaled with source-over at alpha 1; afterwards the context is always reset
to source-over and alpha 1. -/
def pdfDrawLine (tool : PdfTool) (color : String) (brushSize : ℚ)
    (fromP toP : Point) (ctx : Ctx) : Ctx :=
  let pressure := (fromP.pressure + toP.pressure) / 2
  let op := match tool with
    | .eraser => CompOp.destinationOut
    | .highlighter => CompOp.multiply
    | .pen => CompOp.sourceOver
  let alpha := match tool with
    | .eraser => ctx.alpha
    | .highlighter => (3 : ℚ) / 10
    | .pen => 1
  let css := match tool with
    | .eraser => "rgba(0,0,0,1)"
    | _ => color
  let size := match tool with
    | .eraser => brushSize * 3
    | .highlighter => brushSize * 4
    | .pen => brushSize * (1/2 + pressure)
  let r := applyCmd (DrawCmd.strokeSeg fromP.x fromP.y toP.x toP.y (size / 2) css op alpha) ctx.raster
  { gco := .sourceOver, alpha := 1, raster := r }

/-- Component state of the PDF overlay drawing surface. -/
structure PdfDrawState where
  isEditingDrawing : Bool
  isDrawing : Bool
  tool : PdfTool
  color : String
  brushSize : ℚ
  gco : CompOp
  alpha : ℚ
  canvas : Raster
  lastPoint : Option Point
  history : List Raster
  historyIndex : Int
deriving DecidableEq, Repr

/-- PDFCell.handlePointerDown (part_004 lines 356 to 365). -/
def pdfPointerDown (p : Point) (s : PdfDrawState) : PdfDrawState :=
  if s.isEditingDrawing = false then s
  else { s with isDrawing := true, lastPoint := some p }

/-- PDFCell.handlePointerMove (part_004 lines 367 to 379). -/
def pdfPointerMove (p : Point) (s : PdfDrawState) : PdfDrawState :=
  if s.isDrawing = false || s.isEditingDrawing = false then s
  else
    match s.lastPoint with
    | none => s
    | some lp =>
        let c := pdfDrawLine s.tool s.color s.brushSize lp p { gco := s.gco, alpha := s.alpha, raster := s.canvas }
        { s with gco := c.gco, alpha := c.alpha, canvas := c.raster, lastPoint := some p }

/-- PDFCell.handlePointerUp (part_004 lines 381 to 387): reset the gesture
flags and push exactly one history entry. -/
def pdfPointerUp (s : PdfDrawState) : PdfDrawState :=
  if s.isDrawing = false then s
  else
    let hp := pushHistory s.canvas s.history s.historyIndex
    { s with isDrawing := false, lastPoint := none, history := hp.1, historyIndex := hp.2 }

/-- Fold the PDF pointer move handler over a list of move points. -/
def pdfMoves (moves : List Point) (s : PdfDrawState) : PdfDrawState :=
  moves.foldl (fun s m => pdfPointerMove m s) s

/-- One complete gesture on the PDF overlay. -/
def pdfRunGesture (p : Point) (moves : List Point) (s : PdfDrawState) : PdfDrawState :=
  pdfPointerUp (pdfMoves moves (pdfPointerDown p s))

/-!
Mini drawing cell (part_003, MiniDrawing): same tool set as the standalone
cell but points carry no pressure, the eraser always paints white, and the
component keeps no history refs at all, so no handler can push an entry.
-/

/-- A mini cell point: getCanvasPoint there returns only x and y. -/
structure MPoint where
  x : ℚ
  y : ℚ
deriving DecidableEq, Repr

/-- Drop the pressure, as the mini getCanvasPoint does. -/
def miniPointOf (p : Point) : MPoint :=
  { x := p.x, y := p.y }

/-- MiniDrawing drawShape (part_003 lines 1315 to 1353): like the
standalone shape renderer but with the smaller arrow head floor. -/
def miniDrawShape (color : String) (brushSize : ℚ) (fillShape : Bool)
    (shapeType : DCTool) (start finish : MPoint) (preview : Bool) (r : Raster) : Raster :=
  match shapeType with
  | .line =>
      applyCmd (DrawCmd.strokeSeg start.x start.y finish.x finish.y (brushSize / 2) color .sourceOver 1) r
  | .arrow =>
      let headLen := max 8 (brushSize * 3)
      applyCmd (DrawCmd.arrowHead finish.x finish.y headLen color (brushSize / 2))
        (applyCmd (DrawCmd.strokeSeg start.x start.y finish.x finish.y (brushSize / 2) color .sourceOver 1) r)
  | .rect =>
      let r1 := if fillShape && !preview then
          applyCmd (DrawCmd.fillRect start.x start.y (finish.x - start.x) (finish.y - start.y) color) r
        else r
      applyCmd (DrawCmd.strokeRect start.x start.y (finish.x - start.x) (finish.y - start.y) (brushSize / 2) color) r1
  | .circle =>
      let rx := |finish.x - start.x| / 2
      let ry := |finish.y - start.y| / 2
      let cx := start.x + (finish.x - start.x) / 2
      let cy := start.y + (finish.y - start.y) / 2
      let r1 := if fillShape && !preview then
          applyCmd (DrawCmd.ellipseFill cx cy rx ry color) r
        else r
      applyCmd (DrawCmd.ellipseStroke cx cy rx ry (brushSize / 2) color) r1
  | _ => r

/-- Component state of the mini drawing cell.  The source component has no
history or history index refs: nothing here stores snapshots. -/
structure MiniState where
  isEditing : Bool
  isDrawing : Bool
  tool : DCTool
  color : String
  brushSize : ℚ
  fillShape : Bool
  canvas : Raster
  preview : Raster
  lastPoint : Option MPoint
  shapeStart : Option MPoint
deriving DecidableEq, Repr

/-- MiniDrawing.handlePointerDown (part_003 lines 1360 to 1368). -/
def miniPointerDown (p : MPoint) (s : MiniState) : MiniState :=
  if s.isEditing = false then s
  else
    { s with isDrawing := true, lastPoint := some p,
             shapeStart := if dcIsShapeTool s.tool then some p else s.shapeStart }

/-- MiniDrawing.handlePointerMove (part_003 lines 1370 to 1393): shape
preview, or an inline freehand stroke where the eraser paints white at 8
times the brush size and other tools the plain brush size. -/
def miniPointerMove (p : MPoint) (s : MiniState) : MiniState :=
  if s.isDrawing = false || s.isEditing = false then s
  else if dcIsShapeTool s.tool then
    match s.shapeStart with
    | none => s
    | some st =>
        { s with preview := miniDrawShape s.color s.brushSize s.fillShape s.tool st p true (clearRaster s.preview) }
  else
    match s.lastPoint with
    | none => s
    | some lp =>
        let css := if s.tool = .eraser then "#ffffff" else s.color
        let size := if s.tool = .eraser then s.brushSize * 8 else s.brushSize
        { s with canvas := applyCmd (DrawCmd.strokeSeg lp.x lp.y p.x p.y (size / 2) css .sourceOver 1) s.canvas,
                 lastPoint := some p }

/-- MiniDrawing.handlePointerUp (part_003 lines 1395 to 1405): commit the
shape and reset the gesture flags.  No history call appears here. -/
def miniPointerUp (p : MPoint) (s : MiniState) : MiniState :=
  if s.isDrawing = false then s
  else
    let s1 :=
      if dcIsShapeTool s.tool then
        match s.shapeStart with
        | some st =>
            { s with canvas := miniDrawShape s.color s.brushSize s.fillShape s.tool st p false s.canvas,
                     preview := clearRaster s.preview, shapeStart := none }
        | none => s
      else s
    { s1 with isDrawing := false, lastPoint := none }

/-- Fold the mini pointer move handler over a list of move points. -/
def miniMoves (moves : List MPoint) (s : MiniState) : MiniState :=
  moves.foldl (fun s m => miniPointerMove m s) s

/-- One complete gesture on the mini drawing cell. -/
def miniRunGesture (p : MPoint) (moves : List MPoint) (q : MPoint) (s : MiniState) : MiniState :=
  miniPointerUp q (miniMoves moves (miniPointerDown p s))

/-- A drawing surface of the engine: one of the three components. -/
inductive EngineState where
  | full (s : DCState)
  | mini (s : MiniState)
  | pdf (s : PdfDrawState)
deriving DecidableEq, Repr

/-- Number of history entries a surface currently stores.  The mini
drawing cell owns no snapshot storage, so it always stores zero. -/
def historyLength : EngineState → Nat
  | .full s => s.history.length
  | .mini _ => 0
  | .pdf s => s.history.length

/-- One complete gesture on any surface of the engine. -/
def engineRunGesture (p : Point) (moves : List Point) (q : Point) : EngineState → EngineState
  | .full s => .full (dcRunGesture p moves q s)
  | .mini s => .mini (miniRunGesture (miniPointOf p) (moves.map miniPointOf) (miniPointOf q) s)
  | .pdf s => .pdf (pdfRunGesture p moves s)

/-!
External page source adapter (part_004, renderPage effect, lines 112 to
242).  The effect cancels any previous render task before starting a new
one, stores the new task in renderTaskRef, and awaits its promise inside a
try block whose catch drops RenderingCancelledException and reports any
other error.  The page rendering collaborator itself is external to the
repository; per its contract (spec sections 4.6 and 6) a cancelled task
settles by rejecting with RenderingCancelledException and paints nothing,
and an uncancelled task settles by painting its page.
-/

/-- An issued render task: the requested page and its cancel flag. -/
structure RenderTask where
  page : Nat
  cancelled : Bool
deriving DecidableEq, Repr

/-- The adapter state: every task ever issued (its id is its position),
the task renderTaskRef currently holds, the page shown on the PDF canvas,
and the reported render errors. -/
structure PdfSurface where
  tasks : List RenderTask
  activeRef : Option Nat
  baseLayer : Option Nat
  errors : List String
deriving DecidableEq, Repr

/-- Set the cancel flag of the task with the given id. -/
def markCancelled : List RenderTask → Nat → List RenderTask
  | [], _ => []
  | t :: ts, 0 => { t with cancelled := true } :: ts
  | t :: ts, n + 1 => t :: markCancelled ts n

/-- Cancel the task held in renderTaskRef and null the ref (part_004 lines
124 to 128 and the effect cleanup, lines 237 to 241). -/
def cancelActive (s : PdfSurface) : PdfSurface :=
  match s.activeRef with
  | none => s
  | some id => { s with tasks := markCancelled s.tasks id, activeRef := none }

/-- The page render request of the effect body: cancel any previous task,
issue a render task for the page, store it in renderTaskRef. -/
def requestPage (p : Nat) (s : PdfSurface) : PdfSurface :=
  let s1 := cancelActive s
  { s1 with tasks := s1.tasks ++ [{ page := p, cancelled := false }],
            activeRef := some s1.tasks.length }

/-- The catch handler (part_004 lines 226 to 231): errors named
RenderingCancelledException are filtered, anything else is reported. -/
def catchRenderError (name : String) (s : PdfSurface) : PdfSurface :=
  if name = "RenderingCancelledException" then s
  else { s with errors := s.errors ++ [name] }

/-- Settlement of the promise of task id: a cancelled task rejects with
RenderingCancelledException and its result is never painted; an
uncancelled task paints its page onto the PDF canvas. -/
def completeTask (id : Nat) (s : PdfSurface) : PdfSurface :=
  match s.tasks.get? id with
  | none => s
  | some t =>
      if t.cancelled then catchRenderError "RenderingCancelledException" s
      else { s with baseLayer := some t.page }

/-!
Mini drawing cell drag resize (part_003 lines 1428 to 1447): every mouse
move during a resize recomputes the height from the start height and the
vertical distance to the start point, clamped into 100 to 600.
-/

/-- One mouse move of the resize effect. -/
def miniResizeMove (startHeight startY clientY : Int) : Int :=
  max 100 (min 600 (startHeight + (clientY - startY)))

/-- The height after a sequence of mouse moves: each move overwrites the
height from the fixed start data. -/
def miniResizeRun (startHeight startY : Int) (ys : List Int) (h0 : Int) : Int :=
  ys.foldl (fun _ y => miniResizeMove startHeight startY y) h0

/-!
Helper lemmas about the history core.
-/

theorem pushHistory_length_le {α : Type} (snap : α) (hist : List α) (idx : Int)
    (h : hist.length ≤ 50) : ((pushHistory snap hist idx).1).length ≤ 50 := by
  simp only [pushHistory]
  split
  · simp only [List.length_drop, List.length_append, List.length_take, List.length_singleton]
    omega
  · rename_i hgt
    simp only [List.length_append, List.length_take, List.length_singleton] at hgt ⊢
    omega

theorem pushHistory_index_eq {α : Type} (snap : α) (hist : List α) (idx : Int) :
    (pushHistory snap hist idx).2 = ((pushHistory snap hist idx).1.length : Int) - 1 := by
  simp only [pushHistory]
  split
  · rename_i hgt
    simp only [List.length_drop]
    omega
  · rfl

theorem pushHistory_getLast? {α : Type} (snap : α) (hist : List α) (idx : Int) :
    (pushHistory snap hist idx).1.getLast? = some snap := by
  simp only [pushHistory]
  split
  · rename_i hgt
    rw [List.drop_append_eq_append_drop]
    have h1 : (1 : Nat) - (hist.take (idx + 1).toNat).length = 0 := by
      simp only [List.length_append, List.length_take, List.length_singleton] at hgt
      simp only [List.length_take]
      omega
    rw [h1]
    simp [List.getLast?_concat]
  · simp [List.getLast?_concat]

theorem pushHistory_evicts {α : Type} (snap : α) (hist : List α)
    (hlen : hist.length = 50) :
    (pushHistory snap hist ((hist.length : Int) - 1)).1 = hist.drop 1 ++ [snap] := by
  simp only [pushHistory]
  have ht : ((hist.length : Int) - 1 + 1).toNat = hist.length := by omega
  rw [ht, List.take_length]
  have hgt : (hist ++ [snap]).length > 50 := by simp [hlen]
  rw [if_pos hgt]
  rw [List.drop_append_eq_append_drop]
  simp [hlen]

theorem pushHistory_length_at_tail {α : Type} (snap : α) (hist : List α)
    (h : hist.length ≤ 49) :
    ((pushHistory snap hist ((hist.length : Int) - 1)).1).length = hist.length + 1 := by
  simp only [pushHistory]
  have ht : ((hist.length : Int) - 1 + 1).toNat = hist.length := by omega
  rw [ht, List.take_length]
  have hng : ¬ (hist ++ [snap]).length > 50 := by simp; omega
  rw [if_neg hng]
  simp

theorem pushMany_length_le {α : Type} : ∀ (snaps : List α) (hist : List α) (idx : Int),
    hist.length ≤ 50 → ((pushMany snaps (hist, idx)).1).length ≤ 50 := by
  intro snaps
  induction snaps with
  | nil => intro hist idx h; exact h
  | cons a as ih =>
    intro hist idx h
    have h1 := pushHistory_length_le a hist idx h
    simpa [pushMany] using ih (pushHistory a hist idx).1 (pushHistory a hist idx).2 h1

/-- C3: history is bounded by 50 entries.  A push from any state with at
most 50 entries leaves at most 50; any push sequence from the empty
initial history stays at most 50; a push truncates the redo tail, appends
the snapshot, leaves the cursor valid and pointing at the new last entry;
and a push onto a full history whose cursor is at the tail evicts the
oldest entry. -/
theorem history_cap_and_cursor {α : Type} :
    (∀ (snaps : List α) , ((pushMany snaps (([] : List α), (-1 : Int))).1).length ≤ 50) ∧
    (∀ (snap : α) (hist : List α) (idx : Int), hist.length ≤ 50 →
      ((pushHistory snap hist idx).1).length ≤ 50 ∧
      0 ≤ (pushHistory snap hist idx).2 ∧
      (pushHistory snap hist idx).2 < ((pushHistory snap hist idx).1.length : Int) ∧
      (pushHistory snap hist idx).2 = ((pushHistory snap hist idx).1.length : Int) - 1 ∧
      (pushHistory snap hist idx).1.getLast? = some snap) ∧
    (∀ (snap : α) (hist : List α) (idx : Int),
      (hist.take (idx + 1).toNat ++ [snap]).length ≤ 50 →
      (pushHistory snap hist idx).1 = hist.take (idx + 1).toNat ++ [snap]) ∧
    (∀ (snap : α) (hist : List α), hist.length = 50 →
      (pushHistory snap hist ((hist.length : Int) - 1)).1 = hist.drop 1 ++ [snap]) := by
  refine ⟨fun snaps => pushMany_length_le snaps [] (-1) (by simp), ?_,
    fun snap hist idx hle => by simp only [pushHistory]; rw [if_neg (by omega)],
    fun snap hist h => pushHistory_evicts snap hist h⟩
  intro snap hist idx h
  have hlen : 1 ≤ ((pushHistory snap hist idx).1).length := by
    have := pushHistory_getLast? snap hist idx
    rcases hl : (pushHistory snap hist idx).1 with _ | ⟨x, xs⟩
    · rw [hl] at this; simp [List.getLast?] at this
    · simp
  have hidx := pushHistory_index_eq snap hist idx
  exact ⟨pushHistory_length_le snap hist idx h, by omega, by omega, hidx, pushHistory_getLast? snap hist idx⟩

/-- Witness for C3 at a concrete push: one entry, cursor zero. -/
theorem history_cap_and_cursor_witness :
    ((pushHistory (1 : Nat) [0] 0).1).length ≤ 50 ∧
    (pushHistory (1 : Nat) [0] 0).1.getLast? = some 1 := by
  have h := (history_cap_and_cursor (α := Nat)).2.1 1 [0] 0 (by decide)
  exact ⟨h.1, h.2.2.2.2⟩

/-- C8: at the lower boundary (cursor zero) undo is a no-op and at the
upper boundary (cursor on the last entry) redo is a no-op: the whole state
(ink canvas, history sequence, cursor) is returned unchanged, and both
operations are total functions that signal nothing. -/
theorem undo_redo_boundary_noop {α : Type} (s : Hist α) :
    (s.index = 0 → undo s = s) ∧
    (s.index = (s.history.length : Int) - 1 → redo s = s) := by
  constructor
  · intro h
    unfold undo
    rw [if_neg]
    omega
  · intro h
    unfold redo
    rw [if_neg]
    omega

/-- Witness for C8 at a concrete one-entry history. -/
theorem undo_redo_boundary_noop_witness :
    undo ({ canvas := 5, history := [5], index := 0 } : Hist Nat) = { canvas := 5, history := [5], index := 0 } ∧
    redo ({ canvas := 5, history := [5], index := 0 } : Hist Nat) = { canvas := 5, history := [5], index := 0 } := by
  exact ⟨(undo_redo_boundary_noop _).1 rfl, (undo_redo_boundary_noop _).2 (by decide)⟩

/-- C10: after every freehand segment on the PDF overlay, whatever the
tool, the context is restored to source-over compositing at global alpha
one, so one segment never leaks blend settings into the next operation. -/
theorem pdf_drawLine_restores_context (tool : PdfTool) (color : String) (brushSize : ℚ)
    (fromP toP : Point) (ctx : Ctx) :
    (pdfDrawLine tool color brushSize fromP toP ctx).gco = CompOp.sourceOver ∧
    (pdfDrawLine tool color brushSize fromP toP ctx).alpha = 1 :=
  ⟨rfl, rfl⟩

theorem foldl_replace_getLast (f : Int → Int) :
    ∀ (ys : List Int) (h0 : Int) (hne : ys ≠ []),
      ys.foldl (fun _ y => f y) h0 = f (ys.getLast hne) := by
  intro ys
  induction ys with
  | nil => intro h0 hne; exact absurd rfl hne
  | cons y ys ih =>
    intro h0 hne
    cases ys with
    | nil => rfl
    | cons z zs =>
      have h2 : (z :: zs) ≠ [] := by simp
      rw [List.getLast_cons h2]
      exact ih (f y) h2

/-- C9: every height the mini cell resize handler produces is the start
height plus the vertical drag distance, clamped into 100 to 600; after any
nonempty move sequence the height is the clamp of the last move, and every
intermediate height is within the bounds. -/
theorem mini_resize_clamped (startHeight startY : Int) (ys : List Int) (h0 : Int)
    (hne : ys ≠ []) :
    miniResizeRun startHeight startY ys h0 =
      max 100 (min 600 (startHeight + (ys.getLast hne - startY))) ∧
    100 ≤ miniResizeRun startHeight startY ys h0 ∧
    miniResizeRun startHeight startY ys h0 ≤ 600 ∧
    ∀ y ∈ ys, 100 ≤ miniResizeMove startHeight startY y ∧
      miniResizeMove startHeight startY y ≤ 600 := by
  have hbound : ∀ y : Int, 100 ≤ miniResizeMove startHeight startY y ∧
      miniResizeMove startHeight startY y ≤ 600 := by
    intro y
    unfold miniResizeMove
    constructor
    · exact le_max_left _ _
    · exact max_le (by norm_num) (min_le_left _ _)
  have heq : miniResizeRun startHeight startY ys h0 =
      miniResizeMove startHeight startY (ys.getLast hne) :=
    foldl_replace_getLast (fun y => miniResizeMove startHeight startY y) ys h0 hne
  refine ⟨heq, ?_, ?_, fun y _ => hbound y⟩
  · rw [heq]; exact (hbound _).1
  · rw [heq]; exact (hbound _).2

/-- Witness for C9 at a concrete drag below the minimum. -/
theorem mini_resize_clamped_witness :
    miniResizeRun 150 0 [-500] 150 = max 100 (min 600 (150 + (-500 - 0))) ∧
    100 ≤ miniResizeRun 150 0 [-500] 150 :=
  ⟨(mini_resize_clamped 150 0 [-500] 150 (by simp)).1,
   (mini_resize_clamped 150 0 [-500] 150 (by simp)).2.1⟩

/-!
Claim C1: undo and redo round trips over gesture sequences.
-/

/-- The snapshot list a gesture sequence leaves in the history: the
initial seeded state followed by the ink state after each gesture. -/
def gestureSnapshots {α : Type} (c : α) : List (α → α) → List α
  | [] => [c]
  | f :: fs => c :: gestureSnapshots (f c) fs

theorem gestureSnapshots_length {α : Type} : ∀ (fs : List (α → α)) (c : α),
    (gestureSnapshots c fs).length = fs.length + 1 := by
  intro fs
  induction fs with
  | nil => intro c; rfl
  | cons f fs ih => intro c; simp [gestureSnapshots, ih]

theorem getD_irrel {α : Type} : ∀ (l : List α) (n : Nat) (a b : α),
    n < l.length → l.getD n a = l.getD n b := by
  intro l
  induction l with
  | nil => intro n a b h; simp at h
  | cons x xs ih =>
    intro n a b h
    cases n with
    | zero => rfl
    | succ n => simpa [List.getD] using ih n a b (by simpa using h)

theorem gestureSnapshots_getD_zero {α : Type} (c d : α) (fs : List (α → α)) :
    (gestureSnapshots c fs).getD 0 d = c := by
  cases fs <;> rfl

theorem gestureSnapshots_getD_last {α : Type} (d : α) : ∀ (fs : List (α → α)) (c : α),
    (gestureSnapshots c fs).getD fs.length d = fs.foldl (fun a f => f a) c := by
  intro fs
  induction fs with
  | nil => intro c; rfl
  | cons f fs ih => intro c; simpa [gestureSnapshots, List.getD] using ih (f c)

theorem initHist_eq {α : Type} (c : α) : initHist c = ⟨c, [c], 0⟩ := rfl

theorem applyGestures_closed_form {α : Type} : ∀ (fs : List (α → α)) (c : α) (hist : List α),
    hist.length + 1 + fs.length ≤ 50 →
    applyGestures fs ⟨c, hist ++ [c], (hist.length : Int)⟩ =
      ⟨fs.foldl (fun a f => f a) c, hist ++ gestureSnapshots c fs,
        ((hist.length + fs.length : Nat) : Int)⟩ := by
  intro fs
  induction fs with
  | nil =>
    intro c hist hb
    simp [applyGestures, gestureSnapshots]
  | cons f fs ih =>
    intro c hist hb
    simp only [List.length_cons] at hb
    have hstep : applyGesture f ⟨c, hist ++ [c], (hist.length : Int)⟩ =
        ⟨f c, (hist ++ [c]) ++ [f c], (((hist ++ [c]).length : Nat) : Int)⟩ := by
      unfold applyGesture saveToHistory
      simp only [pushHistory]
      have htake : (((hist.length : Int) + 1).toNat) = (hist ++ [c]).length := by
        simp
      rw [htake, List.take_length]
      have hng : ¬ ((hist ++ [c]) ++ [f c]).length > 50 := by
        simp only [List.length_append, List.length_singleton]
        omega
      rw [if_neg hng]
      simp
      omega
    have hb2 : (hist ++ [c]).length + 1 + fs.length ≤ 50 := by
      simp only [List.length_append, List.length_singleton]
      omega
    calc applyGestures (f :: fs) ⟨c, hist ++ [c], (hist.length : Int)⟩
        = applyGestures fs (applyGesture f ⟨c, hist ++ [c], (hist.length : Int)⟩) := rfl
      _ = applyGestures fs ⟨f c, (hist ++ [c]) ++ [f c], (((hist ++ [c]).length : Nat) : Int)⟩ := by rw [hstep]
      _ = ⟨fs.foldl (fun a f => f a) (f c), (hist ++ [c]) ++ gestureSnapshots (f c) fs,
            (((hist ++ [c]).length + fs.length : Nat) : Int)⟩ := ih (f c) (hist ++ [c]) hb2
      _ = ⟨(f :: fs).foldl (fun a f => f a) c, hist ++ gestureSnapshots c (f :: fs),
            ((hist.length + (f :: fs).length : Nat) : Int)⟩ := by
            have hh : (hist ++ [c]) ++ gestureSnapshots (f c) fs =
                hist ++ gestureSnapshots c (f :: fs) := by
              rw [show gestureSnapshots c (f :: fs) = c :: gestureSnapshots (f c) fs from rfl]
              simp
            rw [List.foldl_cons, hh]
            have hidx : (hist ++ [c]).length + fs.length = hist.length + (f :: fs).length := by
              simp only [List.length_append, List.length_singleton, List.length_cons, List.length_nil]
              omega
            rw [hidx]

theorem undoN_closed {α : Type} (d : α) : ∀ (k i : Nat) (hist : List α),
    k ≤ i → i < hist.length →
    undoN k ⟨hist.getD i d, hist, (i : Int)⟩ = ⟨hist.getD (i - k) d, hist, ((i - k : Nat) : Int)⟩ := by
  intro k
  induction k with
  | zero => intro i hist _ _; simp [undoN]
  | succ k ih =>
    intro i hist hk hi
    have hi0 : 0 < i := by omega
    have hstep : undo ⟨hist.getD i d, hist, (i : Int)⟩ =
        ⟨hist.getD (i - 1) d, hist, ((i - 1 : Nat) : Int)⟩ := by
      unfold undo
      rw [if_pos (by show (0 : Int) < (i : Int); exact_mod_cast hi0)]
      have ht : ((i : Int) - 1).toNat = i - 1 := by omega
      have hcast : ((i : Int) - 1) = ((i - 1 : Nat) : Int) := by omega
      rw [ht, hcast, getD_irrel hist (i - 1) (hist.getD i d) d (by omega)]
    show undoN k (undo ⟨hist.getD i d, hist, (i : Int)⟩) = _
    rw [hstep, ih (i - 1) hist (by omega) (by omega)]
    congr 2 <;> omega

theorem redoN_closed {α : Type} (d : α) : ∀ (k i : Nat) (hist : List α),
    i + k < hist.length →
    redoN k ⟨hist.getD i d, hist, (i : Int)⟩ = ⟨hist.getD (i + k) d, hist, ((i + k : Nat) : Int)⟩ := by
  intro k
  induction k with
  | zero => intro i hist _; simp [redoN]
  | succ k ih =>
    intro i hist hik
    have hstep : redo ⟨hist.getD i d, hist, (i : Int)⟩ =
        ⟨hist.getD (i + 1) d, hist, ((i + 1 : Nat) : Int)⟩ := by
      unfold redo
      rw [if_pos (by show (i : Int) < ((hist.length : Nat) : Int) - 1; omega)]
      have ht : ((i : Int) + 1).toNat = i + 1 := by omega
      have hcast : ((i : Int) + 1) = ((i + 1 : Nat) : Int) := by omega
      rw [ht, hcast, getD_irrel hist (i + 1) (hist.getD i d) d (by omega)]
    show redoN k (redo ⟨hist.getD i d, hist, (i : Int)⟩) = _
    rw [hstep, ih (i + 1) hist (by omega)]
    congr 2 <;> omega

/-- C1 (amended): on an initialized surface (one seeded history entry),
after any sequence of at most 49 completed gestures, undoing once per
gesture returns the ink layer to its state before any gesture, and then
redoing once per gesture returns it to the state after all gestures.  The
49 bound is forced by the 50 entry cap: the 50th gesture evicts the seeded
initial snapshot. -/
theorem undo_redo_roundtrip {α : Type} (c0 : α) (fs : List (α → α)) (hN : fs.length ≤ 49) :
    (undoN fs.length (applyGestures fs (initHist c0))).canvas = c0 ∧
    (redoN fs.length (undoN fs.length (applyGestures fs (initHist c0)))).canvas =
      (applyGestures fs (initHist c0)).canvas := by
  have hb : ([] : List α).length + 1 + fs.length ≤ 50 := by simp; omega
  have hstate := applyGestures_closed_form fs c0 [] hb
  have hstate2 : applyGestures fs (initHist c0) =
      ⟨fs.foldl (fun a f => f a) c0, gestureSnapshots c0 fs, ((fs.length : Nat) : Int)⟩ := by
    rw [initHist_eq]
    simpa using hstate
  have hlen : (gestureSnapshots c0 fs).length = fs.length + 1 := gestureSnapshots_length fs c0
  have hcanvas : (gestureSnapshots c0 fs).getD fs.length c0 = fs.foldl (fun a f => f a) c0 :=
    gestureSnapshots_getD_last c0 fs c0
  have hstate3 : applyGestures fs (initHist c0) =
      ⟨(gestureSnapshots c0 fs).getD fs.length c0, gestureSnapshots c0 fs, ((fs.length : Nat) : Int)⟩ := by
    rw [hstate2, hcanvas]
  have hu := undoN_closed c0 fs.length fs.length (gestureSnapshots c0 fs) le_rfl (by omega)
  have hNN : fs.length - fs.length = 0 := by omega
  rw [hNN] at hu
  have hu2 : undoN fs.length (applyGestures fs (initHist c0)) =
      ⟨(gestureSnapshots c0 fs).getD 0 c0, gestureSnapshots c0 fs, ((0 : Nat) : Int)⟩ := by
    rw [hstate3, hu]
  have hr := redoN_closed c0 fs.length 0 (gestureSnapshots c0 fs) (by omega)
  constructor
  · rw [hu2]
    exact gestureSnapshots_getD_zero c0 c0 fs
  · rw [hu2, hr, hstate3]
    show (gestureSnapshots c0 fs).getD (0 + fs.length) c0 = (gestureSnapshots c0 fs).getD fs.length c0
    rw [Nat.zero_add]

/-- Witness for C1 at one concrete gesture. -/
theorem undo_redo_roundtrip_witness :
    (undoN 1 (applyGestures [fun _ => 7] (initHist (0 : Nat)))).canvas = 0 ∧
    (redoN 1 (undoN 1 (applyGestures [fun _ => 7] (initHist (0 : Nat))))).canvas =
      (applyGestures [fun _ => 7] (initHist (0 : Nat))).canvas := by
  have h := undo_redo_roundtrip (0 : Nat) [fun _ => 7] (by decide)
  simpa using h

/-- Fifty gestures, each bumping a counter canvas, for the C1 counterexample. -/
def fiftyGestures : List (Nat → Nat) := List.replicate 50 (fun n => n + 1)

set_option maxRecDepth 100000 in
/-- C1 counterexample: after exactly 50 completed gestures the oldest
snapshot (the pre-gesture state 0) has been evicted, so 50 undos bottom
out at the snapshot after the first gesture and do not restore the state
before any gesture. -/
theorem undo_roundtrip_counterexample :
    ¬ ((undoN 50 (applyGestures fiftyGestures (initHist (0 : Nat)))).canvas = 0) := by
  decide

/-!
Claim C2: history entries per gesture.
-/

theorem dcPointerMove_preserves (p : Point) (s : DCState) :
    (dcPointerMove p s).history = s.history ∧
    (dcPointerMove p s).historyIndex = s.historyIndex ∧
    (dcPointerMove p s).isDrawing = s.isDrawing ∧
    (dcPointerMove p s).isEditing = s.isEditing := by
  unfold dcPointerMove
  repeat' split
  all_goals exact ⟨rfl, rfl, rfl, rfl⟩

theorem dcMoves_preserves (moves : List Point) : ∀ (s : DCState),
    (dcMoves moves s).history = s.history ∧
    (dcMoves moves s).historyIndex = s.historyIndex ∧
    (dcMoves moves s).isDrawing = s.isDrawing ∧
    (dcMoves moves s).isEditing = s.isEditing := by
  induction moves with
  | nil => intro s; exact ⟨rfl, rfl, rfl, rfl⟩
  | cons m ms ih =>
    intro s
    have hstep := dcPointerMove_preserves m s
    have hrest := ih (dcPointerMove m s)
    exact ⟨hrest.1.trans hstep.1, hrest.2.1.trans hstep.2.1,
      hrest.2.2.1.trans hstep.2.2.1, hrest.2.2.2.trans hstep.2.2.2⟩

theorem dcPointerDown_eff (p : Point) (s : DCState) (h : s.isEditing = true) :
    (dcPointerDown p s).history = s.history ∧
    (dcPointerDown p s).historyIndex = s.historyIndex ∧
    (dcPointerDown p s).isDrawing = true := by
  refine ⟨?_, ?_, ?_⟩ <;> simp [dcPointerDown, h]

theorem dcPointerUp_push (q : Point) (s : DCState) (h : s.isDrawing = true) :
    (dcPointerUp q s).history = (pushHistory (dcPointerUp q s).canvas s.history s.historyIndex).1 ∧
    (dcPointerUp q s).historyIndex = (pushHistory (dcPointerUp q s).canvas s.history s.historyIndex).2 := by
  unfold dcPointerUp
  simp only [h, Bool.true_eq_false, if_false]
  repeat' split
  all_goals exact ⟨rfl, rfl⟩

theorem pdfPointerMove_preserves (p : Point) (s : PdfDrawState) :
    (pdfPointerMove p s).history = s.history ∧
    (pdfPointerMove p s).historyIndex = s.historyIndex ∧
    (pdfPointerMove p s).isDrawing = s.isDrawing ∧
    (pdfPointerMove p s).isEditingDrawing = s.isEditingDrawing := by
  unfold pdfPointerMove
  repeat' split
  all_goals exact ⟨rfl, rfl, rfl, rfl⟩

theorem pdfMoves_preserves (moves : List Point) : ∀ (s : PdfDrawState),
    (pdfMoves moves s).history = s.history ∧
    (pdfMoves moves s).historyIndex = s.historyIndex ∧
    (pdfMoves moves s).isDrawing = s.isDrawing ∧
    (pdfMoves moves s).isEditingDrawing = s.isEditingDrawing := by
  induction moves with
  | nil => intro s; exact ⟨rfl, rfl, rfl, rfl⟩
  | cons m ms ih =>
    intro s
    have hstep := pdfPointerMove_preserves m s
    have hrest := ih (pdfPointerMove m s)
    exact ⟨hrest.1.trans hstep.1, hrest.2.1.trans hstep.2.1,
      hrest.2.2.1.trans hstep.2.2.1, hrest.2.2.2.trans hstep.2.2.2⟩

theorem pdfPointerDown_eff (p : Point) (s : PdfDrawState) (h : s.isEditingDrawing = true) :
    (pdfPointerDown p s).history = s.history ∧
    (pdfPointerDown p s).historyIndex = s.historyIndex ∧
    (pdfPointerDown p s).isDrawing = true := by
  refine ⟨?_, ?_, ?_⟩ <;> simp [pdfPointerDown, h]

theorem pdfPointerUp_push (s : PdfDrawState) (h : s.isDrawing = true) :
    (pdfPointerUp s).history = (pushHistory (pdfPointerUp s).canvas s.history s.historyIndex).1 ∧
    (pdfPointerUp s).historyIndex = (pushHistory (pdfPointerUp s).canvas s.history s.historyIndex).2 := by
  unfold pdfPointerUp
  simp only [h, Bool.true_eq_false, if_false]
  constructor <;> first | rfl | trivial

/-- C2 (amended): on the standalone drawing cell and on the PDF overlay a
completed gesture produces exactly one history push (performed at gesture
completion; no intermediate pointer move touches the history or the
cursor, and when the cursor is at the tail of a history below the cap the
entry count grows by exactly one); the mini drawing cell maintains no
history at all, so its gestures produce no history entry. -/
theorem one_history_entry_per_gesture :
    (∀ (s : DCState) (p q : Point) (moves : List Point), s.isEditing = true →
      ((dcMoves moves (dcPointerDown p s)).history = s.history ∧
       (dcMoves moves (dcPointerDown p s)).historyIndex = s.historyIndex) ∧
      ((dcRunGesture p moves q s).history =
         (pushHistory (dcRunGesture p moves q s).canvas s.history s.historyIndex).1 ∧
       (dcRunGesture p moves q s).historyIndex =
         (pushHistory (dcRunGesture p moves q s).canvas s.history s.historyIndex).2) ∧
      (s.historyIndex = (s.history.length : Int) - 1 → s.history.length ≤ 49 →
        (dcRunGesture p moves q s).history.length = s.history.length + 1)) ∧
    (∀ (s : PdfDrawState) (p : Point) (moves : List Point), s.isEditingDrawing = true →
      ((pdfMoves moves (pdfPointerDown p s)).history = s.history ∧
       (pdfMoves moves (pdfPointerDown p s)).historyIndex = s.historyIndex) ∧
      ((pdfRunGesture p moves s).history =
         (pushHistory (pdfRunGesture p moves s).canvas s.history s.historyIndex).1 ∧
       (pdfRunGesture p moves s).historyIndex =
         (pushHistory (pdfRunGesture p moves s).canvas s.history s.historyIndex).2) ∧
      (s.historyIndex = (s.history.length : Int) - 1 → s.history.length ≤ 49 →
        (pdfRunGesture p moves s).history.length = s.history.length + 1)) ∧
    (∀ (s : MiniState) (p q : Point) (moves : List Point),
      historyLength (engineRunGesture p moves q (EngineState.mini s)) = 0) := by
  refine ⟨?_, ?_, fun s p q moves => rfl⟩
  · intro s p q moves hedit
    have hdown := dcPointerDown_eff p s hedit
    have hmoves := dcMoves_preserves moves (dcPointerDown p s)
    have hhist : (dcMoves moves (dcPointerDown p s)).history = s.history := hmoves.1.trans hdown.1
    have hidx : (dcMoves moves (dcPointerDown p s)).historyIndex = s.historyIndex :=
      hmoves.2.1.trans hdown.2.1
    have hdraw : (dcMoves moves (dcPointerDown p s)).isDrawing = true :=
      hmoves.2.2.1.trans hdown.2.2
    have hup := dcPointerUp_push q (dcMoves moves (dcPointerDown p s)) hdraw
    rw [hhist, hidx] at hup
    refine ⟨⟨hhist, hidx⟩, hup, ?_⟩
    intro htail hcap
    have := hup.1
    rw [show (dcRunGesture p moves q s).history =
        (pushHistory (dcRunGesture p moves q s).canvas s.history s.historyIndex).1 from this,
      htail]
    exact pushHistory_length_at_tail _ _ hcap
  · intro s p moves hedit
    have hdown := pdfPointerDown_eff p s hedit
    have hmoves := pdfMoves_preserves moves (pdfPointerDown p s)
    have hhist : (pdfMoves moves (pdfPointerDown p s)).history = s.history := hmoves.1.trans hdown.1
    have hidx : (pdfMoves moves (pdfPointerDown p s)).historyIndex = s.historyIndex :=
      hmoves.2.1.trans hdown.2.1
    have hdraw : (pdfMoves moves (pdfPointerDown p s)).isDrawing = true :=
      hmoves.2.2.1.trans hdown.2.2
    have hup := pdfPointerUp_push (pdfMoves moves (pdfPointerDown p s)) hdraw
    rw [hhist, hidx] at hup
    refine ⟨⟨hhist, hidx⟩, hup, ?_⟩
    intro htail hcap
    rw [show (pdfRunGesture p moves s).history =
        (pushHistory (pdfRunGesture p moves s).canvas s.history s.historyIndex).1 from hup.1,
      htail]
    exact pushHistory_length_at_tail _ _ hcap

/-- A concrete gesture start point. -/
def originPoint : Point := { x := 0, y := 0, pressure := 1/2 }

/-- A concrete editable mini drawing cell state on a one pixel canvas. -/
def miniGestureState : MiniState :=
  { isEditing := true, isDrawing := false, tool := DCTool.pen, color := "#000000",
    brushSize := 2, fillShape := false, canvas := blankRaster 1 1,
    preview := blankRaster 1 1, lastPoint := none, shapeStart := none }

/-- C2 counterexample: on the mini drawing cell a completed gesture
produces zero history entries, not exactly one, because the component has
no history storage and its pointer up handler pushes nothing. -/
theorem one_history_entry_counterexample :
    ¬ (historyLength (engineRunGesture originPoint [] originPoint (EngineState.mini miniGestureState)) =
        historyLength (EngineState.mini miniGestureState) + 1) := by
  decide

/-- A concrete editable standalone drawing cell state with a seeded
history, for the C2 witness. -/
def dcGestureState : DCState :=
  { isEditing := true, isDrawing := false, tool := DCTool.pen, color := "#000000",
    brushSize := 3, fillShape := false, dark := false, canvas := blankRaster 1 1,
    preview := blankRaster 1 1, lastPoint := none, shapeStart := none,
    history := [blankRaster 1 1], historyIndex := 0 }

/-- Witness for C2 at a concrete gesture on the standalone cell. -/
theorem one_history_entry_per_gesture_witness :
    (dcRunGesture originPoint [] originPoint dcGestureState).history =
      (pushHistory (dcRunGesture originPoint [] originPoint dcGestureState).canvas
        dcGestureState.history dcGestureState.historyIndex).1 ∧
    (dcRunGesture originPoint [] originPoint dcGestureState).history.length =
      dcGestureState.history.length + 1 :=
  ⟨(one_history_entry_per_gesture.1 dcGestureState originPoint originPoint [] rfl).2.1.1,
   (one_history_entry_per_gesture.1 dcGestureState originPoint originPoint [] rfl).2.2
     (by decide) (by decide)⟩

/-!
Claims C7 and C4: the background generator and the layer contents.
-/

theorem applyCmds_cons (c : DrawCmd) (cs : List DrawCmd) (r : Raster) :
    applyCmds (c :: cs) r = applyCmds cs (applyCmd c r) := rfl

theorem fillRect_covers_all (w h : Nat) (css : String) (i : Nat) (hi : i < w * h) :
    coversIdx w (DrawCmd.fillRect 0 0 (w : ℚ) (h : ℚ) css) i := by
  rcases Nat.eq_zero_or_pos w with hw | hw
  · subst hw; simp at hi
  have hx : i % w < w := Nat.mod_lt _ hw
  have hy : i / w < h := Nat.div_lt_of_lt_mul hi
  show inRect 0 0 (w : ℚ) (h : ℚ) ((i % w : Nat) : ℚ) ((i / w : Nat) : ℚ)
  unfold inRect
  rw [zero_add, zero_add, min_eq_left (Nat.cast_nonneg w), max_eq_right (Nat.cast_nonneg w),
    min_eq_left (Nat.cast_nonneg h), max_eq_right (Nat.cast_nonneg h)]
  refine ⟨Nat.cast_nonneg _, ?_, Nat.cast_nonneg _, ?_⟩
  · exact_mod_cast hx.le
  · exact_mod_cast hy.le

theorem paintData_eq_replicate (g : Nat → Color → Color) (K : Color) :
    ∀ (cs : List Color) (j : Nat), (∀ i c, j ≤ i → i < j + cs.length → g i c = K) →
    paintData g j cs = List.replicate cs.length K := by
  intro cs
  induction cs with
  | nil => intro j _; rfl
  | cons c cs ih =>
    intro j hval
    have h1 : g j c = K := hval j c le_rfl (by simp)
    have h2 : paintData g (j + 1) cs = List.replicate cs.length K :=
      ih (j + 1) (fun i cc hi1 hi2 => hval i cc (by omega)
        (by simp only [List.length_cons]; omega))
    rw [List.length_cons, List.replicate_succ,
      show paintData g j (c :: cs) = g j c :: paintData g (j + 1) cs from rfl, h1, h2]

theorem raster_eq (a b : Raster) (h1 : a.width = b.width) (h2 : a.height = b.height)
    (h3 : a.data = b.data) : a = b := by
  cases a
  cases b
  simp only at h1 h2 h3
  rw [h1, h2, h3]

theorem applyCmd_fillRect_full (w h : Nat) (css : String) (r : Raster)
    (hw : r.width = w) (hh : r.height = h) (hl : r.data.length = w * h) :
    applyCmd (DrawCmd.fillRect 0 0 (w : ℚ) (h : ℚ) css) r =
      { width := w, height := h, data := List.replicate (w * h) (Color.rgb css) } := by
  refine raster_eq _ _ hw hh ?_
  show paintData _ 0 r.data = _
  rw [← hl]
  apply paintData_eq_replicate
  intro i c _ hi2
  rw [hw, if_pos (fillRect_covers_all w h css i (by omega))]
  simp [paintPixel, blendPixel]

theorem drawBackground_indep (w h : Nat) (t : BackgroundType) (dark : Bool)
    (r1 r2 : Raster) (h1w : r1.width = w) (h1h : r1.height = h) (h1l : r1.data.length = w * h)
    (h2w : r2.width = w) (h2h : r2.height = h) (h2l : r2.data.length = w * h) :
    drawBackground w h t dark r1 = drawBackground w h t dark r2 := by
  unfold drawBackground drawBackgroundCmds
  rw [applyCmds_cons, applyCmds_cons,
    applyCmd_fillRect_full w h _ r1 h1w h1h h1l,
    applyCmd_fillRect_full w h _ r2 h2w h2h h2l]

/-- C7: the background pattern generator only depends on its arguments:
over any two equally sized starting rasters it produces the identical
raster (the leading whole-canvas fill makes previous content irrelevant),
so regenerating over an existing raster equals generating fresh and no
drift can accumulate.  Determinism in the strict sense (equal arguments,
equal output) holds definitionally for the pure embedding. -/
theorem background_generator_deterministic (w h : Nat) (t : BackgroundType) (dark : Bool)
    (r r1 r2 : Raster)
    (h1w : r1.width = w) (h1h : r1.height = h) (h1l : r1.data.length = w * h)
    (h2w : r2.width = w) (h2h : r2.height = h) (h2l : r2.data.length = w * h)
    (hw : r.width = w) (hh : r.height = h) (hl : r.data.length = w * h) :
    drawBackground w h t dark r1 = drawBackground w h t dark r2 ∧
    drawBackground w h t dark (drawBackground w h t dark r) =
      drawBackground w h t dark (blankRaster w h) := by
  constructor
  · exact drawBackground_indep w h t dark r1 r2 h1w h1h h1l h2w h2h h2l
  · apply drawBackground_indep w h t dark
    · rw [show (drawBackground w h t dark r).width = r.width from applyCmds_width _ r, hw]
    · rw [show (drawBackground w h t dark r).height = r.height from applyCmds_height _ r, hh]
    · rw [show (drawBackground w h t dark r).data.length = r.data.length from applyCmds_length _ r, hl]
    · rfl
    · rfl
    · simp [blankRaster]

/-- Witness for C7 on a one pixel canvas over two different prior rasters. -/
theorem background_generator_deterministic_witness :
    drawBackground 1 1 BackgroundType.blank false (blankRaster 1 1) =
      drawBackground 1 1 BackgroundType.blank false
        { width := 1, height := 1, data := [Color.rgb "#000000"] } ∧
    drawBackground 1 1 BackgroundType.blank false
        (drawBackground 1 1 BackgroundType.blank false (blankRaster 1 1)) =
      drawBackground 1 1 BackgroundType.blank false (blankRaster 1 1) :=
  ⟨(background_generator_deterministic 1 1 .blank false (blankRaster 1 1) (blankRaster 1 1)
      { width := 1, height := 1, data := [Color.rgb "#000000"] }
      rfl rfl (by decide) rfl rfl (by decide) rfl rfl (by decide)).1,
   (background_generator_deterministic 1 1 .blank false (blankRaster 1 1) (blankRaster 1 1)
      { width := 1, height := 1, data := [Color.rgb "#000000"] }
      rfl rfl (by decide) rfl rfl (by decide) rfl rfl (by decide)).2⟩

theorem paintData_mem (f : Nat → Color → Color) :
    ∀ (cs : List Color) (j : Nat) (x : Color), x ∈ paintData f j cs →
    ∃ i c, c ∈ cs ∧ x = f i c := by
  intro cs
  induction cs with
  | nil => intro j x hx; simp [paintData] at hx
  | cons c cs ih =>
    intro j x hx
    rcases List.mem_cons.mp hx with rfl | hx
    · exact ⟨j, c, List.mem_cons_self c cs, rfl⟩
    · obtain ⟨i, cc, hmem, heq⟩ := ih (j + 1) x hx
      exact ⟨i, cc, List.mem_cons_of_mem c hmem, heq⟩

theorem applyCmd_keepsInk (c : DrawCmd)
    (hop : ∀ old, paintPixel c old ≠ Color.transparent) (r : Raster)
    (hr : ∀ x ∈ r.data, x ≠ Color.transparent) :
    ∀ x ∈ (applyCmd c r).data, x ≠ Color.transparent := by
  intro x hx
  obtain ⟨i, cc, hmem, heq⟩ := paintData_mem _ r.data 0 x hx
  subst heq
  by_cases hcov : coversIdx r.width c i
  · rw [if_pos hcov]; exact hop cc
  · rw [if_neg hcov]; exact hr cc hmem

theorem applyCmds_keepsInk (cs : List DrawCmd)
    (hcs : ∀ c ∈ cs, ∀ old, paintPixel c old ≠ Color.transparent) :
    ∀ (r : Raster), (∀ x ∈ r.data, x ≠ Color.transparent) →
    ∀ x ∈ (applyCmds cs r).data, x ≠ Color.transparent := by
  induction cs with
  | nil => intro r hr; exact hr
  | cons c cs ih =>
    intro r hr
    rw [applyCmds_cons]
    exact ih (fun d hd old => hcs d (List.mem_cons_of_mem c hd) old)
      (applyCmd c r)
      (applyCmd_keepsInk c (hcs c (List.mem_cons_self c cs)) r hr)

theorem bgCmds_keepsInk (w h : Nat) (t : BackgroundType) (dark : Bool) :
    ∀ c ∈ drawBackgroundCmds w h t dark, ∀ old, paintPixel c old ≠ Color.transparent := by
  intro c hc old
  unfold drawBackgroundCmds at hc
  rcases List.mem_cons.mp hc with rfl | htail
  · simp [paintPixel, blendPixel]
  · unfold drawBackgroundTail at htail
    cases t with
    | blank => simp at htail
    | grid =>
      rcases List.mem_append.mp htail with hm | hm
      · obtain ⟨x, _, rfl⟩ := List.mem_map.mp hm
        simp [paintPixel, blendPixel]
      · obtain ⟨y, _, rfl⟩ := List.mem_map.mp hm
        simp [paintPixel, blendPixel]
    | lines =>
      obtain ⟨y, _, rfl⟩ := List.mem_map.mp htail
      simp [paintPixel, blendPixel]
    | dots =>
      obtain ⟨x, _, hx⟩ := List.mem_flatMap.mp htail
      obtain ⟨y, _, rfl⟩ := List.mem_map.mp hx
      simp [paintPixel, blendPixel]

/-- C4 (amended): in the standalone drawing cell the base pattern is not
confined to the background canvas: initialization of a cell without a
saved payload paints the generated background onto the main ink canvas
(every ink pixel starts as solid base content, never transparent), and
the clear operation repaints it there; only the PDF overlay keeps its ink
layer free of base content, starting fully transparent over the
separately rendered page canvas. -/
theorem ink_layer_base_content (w h : Nat) (t : BackgroundType) (dark : Bool) :
    (∀ (i : Nat) (c : Color), (dcInitInk w h t dark).data.get? i = some c →
      c ≠ Color.transparent) ∧
    (∀ (r : Raster), r.width = w → r.height = h → r.data.length = w * h →
      dcClearInk w h t dark r = dcInitInk w h t dark) ∧
    (∀ (r : Raster) (i : Nat) (c : Color), (pdfInitOverlay r).data.get? i = some c →
      c = Color.transparent) := by
  refine ⟨?_, ?_, ?_⟩
  · have hall : ∀ x ∈ (dcInitInk w h t dark).data, x ≠ Color.transparent := by
      unfold dcInitInk drawBackground drawBackgroundCmds
      rw [applyCmds_cons, applyCmd_fillRect_full w h _ (blankRaster w h) rfl rfl (by simp [blankRaster])]
      refine applyCmds_keepsInk _ ?_ _ ?_
      · intro d hd old
        exact bgCmds_keepsInk w h t dark d (List.mem_cons_of_mem _ hd) old
      · intro x hx
        rw [List.eq_of_mem_replicate hx]
        simp
    intro i c hc
    exact hall c (List.get?_mem hc)
  · intro r hrw hrh hrl
    exact drawBackground_indep w h t dark r (blankRaster w h) hrw hrh hrl rfl rfl (by simp [blankRaster])
  · intro r i c hc
    have := List.get?_mem hc
    exact List.eq_of_mem_replicate this

theorem dcInitInk_blank_eval (w h : Nat) :
    dcInitInk w h BackgroundType.blank false =
      { width := w, height := h, data := List.replicate (w * h) (Color.rgb "#ffffff") } := by
  unfold dcInitInk drawBackground drawBackgroundCmds drawBackgroundTail
  rw [applyCmds_cons]
  show applyCmd _ (blankRaster w h) = _
  rw [applyCmd_fillRect_full w h _ _ rfl rfl (by simp [blankRaster])]
  rfl

/-- C4 counterexample: the freshly initialized ink canvas of a two by two
blank background drawing cell is not the transparent canvas a base free
ink layer would be: the code copies the background onto it. -/
theorem ink_layer_base_content_counterexample :
    ¬ (dcInitInk 2 2 BackgroundType.blank false = blankRaster 2 2) := by
  rw [dcInitInk_blank_eval]
  intro hc
  have hd := congrArg Raster.data hc
  have hne : ¬ ((List.replicate (2 * 2) (Color.rgb "#ffffff") : List Color) =
      List.replicate (2 * 2) Color.transparent) := by decide
  exact hne (by simp only [blankRaster] at hd; exact hd)

/-- Witness for C4 at a concrete pixel and a concrete clear. -/
theorem ink_layer_base_content_witness :
    Color.rgb "#ffffff" ≠ Color.transparent ∧
    dcClearInk 1 1 BackgroundType.blank false (blankRaster 1 1) =
      dcInitInk 1 1 BackgroundType.blank false :=
  ⟨(ink_layer_base_content 1 1 .blank false).1 0 (Color.rgb "#ffffff")
      (by rw [dcInitInk_blank_eval]; rfl),
   (ink_layer_base_content 1 1 .blank false).2.1 (blankRaster 1 1) rfl rfl (by decide)⟩

/-!
Claim C5: eraser semantics on the two kinds of surfaces.
-/

theorem applyCmd_get? (c : DrawCmd) (r : Raster) (i : Nat) :
    (applyCmd c r).data.get? i =
      (r.data.get? i).map (fun old => if coversIdx r.width c i then paintPixel c old else old) := by
  show (paintData _ 0 r.data).get? i = _
  rw [paintData_get?, Nat.zero_add]

/-- The stroke command the drawing cell eraser issues: 8 times the brush
size, theme background color, default compositing. -/
def dcEraserCmd (dark : Bool) (brushSize : ℚ) (fromP toP : Point) : DrawCmd :=
  DrawCmd.strokeSeg fromP.x fromP.y toP.x toP.y ((brushSize * 8) / 2) (dcEraserColor dark) .sourceOver 1

/-- The stroke command the PDF overlay eraser issues: 3 times the brush
size, destination-out compositing. -/
def pdfEraserCmd (brushSize : ℚ) (fromP toP : Point) (alpha : ℚ) : DrawCmd :=
  DrawCmd.strokeSeg fromP.x fromP.y toP.x toP.y ((brushSize * 3) / 2) "rgba(0,0,0,1)" .destinationOut alpha

theorem dcDrawLine_eraser_eq (dark : Bool) (color : String) (brushSize : ℚ)
    (p q : Point) (r : Raster) :
    dcDrawLine .eraser dark color brushSize p q r = applyCmd (dcEraserCmd dark brushSize p q) r := rfl

theorem pdfDrawLine_eraser_eq (color : String) (brushSize : ℚ) (p q : Point) (ctx : Ctx) :
    (pdfDrawLine .eraser color brushSize p q ctx).raster =
      applyCmd (pdfEraserCmd brushSize p q ctx.alpha) ctx.raster := rfl

/-- C5: the drawing cell eraser paints every covered pixel with the theme
base color (the same color the background generator fills with) under
normal compositing, so it reveals background color rather than
transparency; the PDF overlay eraser instead composites destination-out,
clearing every covered ink pixel to transparency so the separately
rendered page below stays visible. -/
theorem eraser_semantics (dark : Bool) (color : String) (brushSize : ℚ) (p q : Point)
    (r : Raster) (gco : CompOp) (alpha : ℚ) (i : Nat) (old : Color)
    (hold : r.data.get? i = some old) :
    (coversIdx r.width (dcEraserCmd dark brushSize p q) i →
      (dcDrawLine .eraser dark color brushSize p q r).data.get? i =
        some (Color.rgb (dcEraserColor dark))) ∧
    (coversIdx r.width (pdfEraserCmd brushSize p q alpha) i →
      (pdfDrawLine .eraser color brushSize p q
          { gco := gco, alpha := alpha, raster := r }).raster.data.get? i =
        some Color.transparent) ∧
    dcEraserColor dark = dcBgFillColor dark ∧
    Color.rgb (dcEraserColor dark) ≠ Color.transparent := by
  refine ⟨?_, ?_, rfl, by simp⟩
  · intro hcov
    rw [dcDrawLine_eraser_eq, applyCmd_get?, hold, Option.map_some', if_pos hcov]
    simp [dcEraserCmd, paintPixel, blendPixel]
  · intro hcov
    rw [pdfDrawLine_eraser_eq, applyCmd_get?, hold, Option.map_some', if_pos hcov]
    simp [pdfEraserCmd, paintPixel, blendPixel]

/-- A one pixel transparent ink raster. -/
def oneClearRaster : Raster := { width := 1, height := 1, data := [Color.transparent] }

/-- Witness for C5 at a concrete zero length eraser segment over a one
pixel raster. -/
theorem eraser_semantics_witness :
    (dcDrawLine .eraser false "#000000" 2 originPoint originPoint oneClearRaster).data.get? 0 =
      some (Color.rgb (dcEraserColor false)) ∧
    (pdfDrawLine .eraser "#000000" 2 originPoint originPoint
        { gco := .sourceOver, alpha := 1, raster := oneClearRaster }).raster.data.get? 0 =
      some Color.transparent := by
  have hc1 : coversIdx oneClearRaster.width (dcEraserCmd false 2 originPoint originPoint) 0 := by
    show sqDistToSeg 0 0 0 0 ((0 % 1 : Nat) : ℚ) ((0 / 1 : Nat) : ℚ) ≤ ((2 * 8) / 2) * ((2 * 8) / 2)
    norm_num [sqDistToSeg]
  have hc2 : coversIdx oneClearRaster.width (pdfEraserCmd 2 originPoint originPoint 1) 0 := by
    show sqDistToSeg 0 0 0 0 ((0 % 1 : Nat) : ℚ) ((0 / 1 : Nat) : ℚ) ≤ ((2 * 3) / 2) * ((2 * 3) / 2)
    norm_num [sqDistToSeg]
  exact ⟨(eraser_semantics false "#000000" 2 originPoint originPoint oneClearRaster
      .sourceOver 1 0 Color.transparent rfl).1 hc1,
    (eraser_semantics false "#000000" 2 originPoint originPoint oneClearRaster
      .sourceOver 1 0 Color.transparent rfl).2.1 hc2⟩

/-!
Claim C6: superseded page renders are cancelled and ignored.
-/

theorem markCancelled_length : ∀ (ts : List RenderTask) (id : Nat),
    (markCancelled ts id).length = ts.length := by
  intro ts
  induction ts with
  | nil => intro id; rfl
  | cons t ts ih =>
    intro id
    cases id with
    | zero => rfl
    | succ n => simp [markCancelled, ih n]

theorem markCancelled_get?_self : ∀ (ts : List RenderTask) (id : Nat),
    (markCancelled ts id).get? id = (ts.get? id).map (fun t => { t with cancelled := true }) := by
  intro ts
  induction ts with
  | nil => intro id; cases id <;> rfl
  | cons t ts ih =>
    intro id
    cases id with
    | zero => rfl
    | succ n => simpa [markCancelled] using ih n

theorem cancelActive_tasks_length (s : PdfSurface) :
    (cancelActive s).tasks.length = s.tasks.length := by
  unfold cancelActive
  cases s.activeRef with
  | none => rfl
  | some id => simp [markCancelled_length]

theorem cancelActive_errors (s : PdfSurface) : (cancelActive s).errors = s.errors := by
  unfold cancelActive
  cases s.activeRef with
  | none => rfl
  | some id => rfl

theorem cancelActive_baseLayer (s : PdfSurface) : (cancelActive s).baseLayer = s.baseLayer := by
  unfold cancelActive
  cases s.activeRef with
  | none => rfl
  | some id => rfl

theorem requestPage_new_task (p : Nat) (s : PdfSurface) :
    (requestPage p s).tasks.get? s.tasks.length = some { page := p, cancelled := false } := by
  unfold requestPage
  show ((cancelActive s).tasks ++ [({ page := p, cancelled := false } : RenderTask)]).get? s.tasks.length = _
  rw [← cancelActive_tasks_length s]
  exact List.get?_concat_length _ _

theorem requestPage_activeRef (p : Nat) (s : PdfSurface) :
    (requestPage p s).activeRef = some s.tasks.length := by
  unfold requestPage
  show some (cancelActive s).tasks.length = _
  rw [cancelActive_tasks_length s]

/-- C6: when a page render is superseded the in-flight task is cancelled;
the settlement of a cancelled task changes nothing (its rejection is
filtered by name before the error report, and nothing is painted); the
settlement of the latest request paints its page; and in the page 2 then
page 3 scenario, completing the stale task and then the fresh one leaves
the base layer at page 3 and reports no error. -/
theorem superseded_render_ignored :
    (∀ (s : PdfSurface) (p : Nat) (id : Nat), s.activeRef = some id → id < s.tasks.length →
      ((requestPage p s).tasks.get? id).map RenderTask.cancelled = some true) ∧
    (∀ (s : PdfSurface) (id : Nat) (t : RenderTask), s.tasks.get? id = some t →
      t.cancelled = true → completeTask id s = s) ∧
    (∀ (s : PdfSurface) (p : Nat),
      (completeTask s.tasks.length (requestPage p s)).baseLayer = some p ∧
      (completeTask s.tasks.length (requestPage p s)).errors = s.errors) ∧
    (∀ (s : PdfSurface) (p2 p3 : Nat),
      (completeTask (s.tasks.length + 1)
        (completeTask s.tasks.length (requestPage p3 (requestPage p2 s)))).baseLayer = some p3 ∧
      (completeTask (s.tasks.length + 1)
        (completeTask s.tasks.length (requestPage p3 (requestPage p2 s)))).errors = s.errors) := by
  have hcancel : ∀ (s : PdfSurface) (p : Nat) (id : Nat), s.activeRef = some id →
      id < s.tasks.length →
      ((requestPage p s).tasks.get? id).map RenderTask.cancelled = some true := by
    intro s p id hact hlt
    unfold requestPage
    show (((cancelActive s).tasks ++ [({ page := p, cancelled := false } : RenderTask)]).get? id).map _ = _
    rw [List.get?_append (by rw [cancelActive_tasks_length s]; exact hlt)]
    unfold cancelActive
    rw [hact]
    show ((markCancelled s.tasks id).get? id).map RenderTask.cancelled = some true
    rw [markCancelled_get?_self]
    obtain ⟨t, ht⟩ : ∃ t, s.tasks.get? id = some t :=
      ⟨s.tasks.get ⟨id, hlt⟩, List.get?_eq_get hlt⟩
    rw [ht]
    rfl
  have hignored : ∀ (s : PdfSurface) (id : Nat) (t : RenderTask), s.tasks.get? id = some t →
      t.cancelled = true → completeTask id s = s := by
    intro s id t ht hc
    unfold completeTask
    rw [ht]
    show (if t.cancelled = true then catchRenderError "RenderingCancelledException" s
      else { s with baseLayer := some t.page }) = s
    rw [if_pos hc]
    unfold catchRenderError
    rw [if_pos rfl]
  have hfresh : ∀ (s : PdfSurface) (p : Nat),
      (completeTask s.tasks.length (requestPage p s)).baseLayer = some p ∧
      (completeTask s.tasks.length (requestPage p s)).errors = s.errors := by
    intro s p
    unfold completeTask
    rw [requestPage_new_task p s]
    show ((if false = true then _ else { requestPage p s with baseLayer := some p }) : PdfSurface).baseLayer = some p ∧
      ((if false = true then _ else { requestPage p s with baseLayer := some p }) : PdfSurface).errors = s.errors
    rw [if_neg (by simp)]
    refine ⟨rfl, ?_⟩
    show (requestPage p s).errors = s.errors
    unfold requestPage
    show (cancelActive s).errors = s.errors
    exact cancelActive_errors s
  refine ⟨hcancel, hignored, hfresh, ?_⟩
  intro s p2 p3
  have hlen1 : (requestPage p2 s).tasks.length = s.tasks.length + 1 := by
    unfold requestPage
    simp [cancelActive_tasks_length]
  have hact1 : (requestPage p2 s).activeRef = some s.tasks.length := requestPage_activeRef p2 s
  have hstale : ((requestPage p3 (requestPage p2 s)).tasks.get? s.tasks.length).map
      RenderTask.cancelled = some true :=
    hcancel (requestPage p2 s) p3 s.tasks.length hact1 (by omega)
  obtain ⟨t2, ht2, hc2⟩ : ∃ t2, (requestPage p3 (requestPage p2 s)).tasks.get? s.tasks.length = some t2 ∧
      t2.cancelled = true := by
    rcases hg : (requestPage p3 (requestPage p2 s)).tasks.get? s.tasks.length with _ | t2
    · rw [hg] at hstale; simp at hstale
    · rw [hg] at hstale
      exact ⟨t2, rfl, by simpa using hstale⟩
  have hskip : completeTask s.tasks.length (requestPage p3 (requestPage p2 s)) =
      requestPage p3 (requestPage p2 s) :=
    hignored _ s.tasks.length t2 ht2 hc2
  rw [hskip]
  have := hfresh (requestPage p2 s) p3
  rw [hlen1] at this
  refine ⟨this.1, this.2.trans ?_⟩
  show (requestPage p2 s).errors = s.errors
  unfold requestPage
  show (cancelActive s).errors = s.errors
  exact cancelActive_errors s

/-- The adapter state before any request. -/
def freshPdfSurface : PdfSurface := { tasks := [], activeRef := none, baseLayer := none, errors := [] }

/-- Witness for C6: completing a concrete cancelled task is a no-op. -/
def cancelledTaskSurface : PdfSurface :=
  { tasks := [{ page := 2, cancelled := true }], activeRef := none,
    baseLayer := some 3, errors := [] }

theorem superseded_render_ignored_witness :
    completeTask 0 cancelledTaskSurface = cancelledTaskSurface :=
  superseded_render_ignored.2.1 cancelledTaskSurface 0 { page := 2, cancelled := true } rfl rfl
